import Mathlib

/-!
Shallow embedding of the permission-expression engine of
`laravel-react-permissions` (`src/hooks/use-permissions.tsx`).

Strings are modelled as `List Char`; the JavaScript string operations used by
the source (`String.prototype.replace` with the concrete regexes appearing in
the source, `String.prototype.match` with the source's `permissionRegex`,
`String.prototype.trim`, `Array.prototype.some/every/includes/filter`) are
embedded as executable Lean functions with JavaScript's scanning semantics
(left-to-right, non-overlapping, replacements not rescanned).  `new RegExp`
construction, which throws on invalid pattern syntax, is modelled as an
`Option`-returning parser into a small regex AST covering exactly the
constructs reachable from the source's pattern compiler; the dynamic
`Function(...)` evaluation of the residual boolean expression is modelled by a
parser/evaluator for the JavaScript expression fragment that can occur there,
with `Except Unit` standing for a thrown exception (`SyntaxError`,
`ReferenceError`).
-/
namespace Perm

/-- JavaScript whitespace recognised by `String.prototype.trim` (ASCII part;
the inputs of interest contain no exotic Unicode spaces). -/
def isJsSpace (c : Char) : Bool :=
  c = ' ' || c = '\t' || c = '\n' || c = '\r' || c = Char.ofNat 11 || c = Char.ofNat 12

/-- ASCII letter, `[a-zA-Z]`. -/
def isAsciiAlpha (c : Char) : Bool :=
  ('a' ≤ c && c ≤ 'z') || ('A' ≤ c && c ≤ 'Z')

/-- ASCII digit, `[0-9]`. -/
def isAsciiDigit (c : Char) : Bool :=
  '0' ≤ c && c ≤ '9'

/-- JavaScript regex word character `\w` = `[A-Za-z0-9_]`; used by the `\b`
word-boundary assertions the source builds around matched permissions. -/
def isWordChar (c : Char) : Bool :=
  isAsciiAlpha c || isAsciiDigit c || c = '_'

/-- First-character class `[a-zA-Z_]` of the source's `permissionRegex`. -/
def isIdentStart (c : Char) : Bool :=
  isAsciiAlpha c || c = '_'

/-- Continuation class `[a-zA-Z0-9_.*?]` of the source's `permissionRegex`. -/
def isIdentChar (c : Char) : Bool :=
  isAsciiAlpha c || isAsciiDigit c || c = '_' || c = '.' || c = '*' || c = '?'

/-- `String.prototype.trim` on a character list. -/
def jsTrim (l : List Char) : List Char :=
  ((l.dropWhile isJsSpace).reverse.dropWhile isJsSpace).reverse

/-! ### Operator normalization (source lines 100–107)

`expression.replace(/\|(?!\|)/g, '||').replace(/&(?!&)/g, '&&')` followed by
`.replace(/\|\|\|/g, '||').replace(/&&&/g, '&&')`.  Each pass scans the
source string left to right; a replacement is emitted into the output and
scanning resumes after the matched characters of the *input*, so the passes
are straightforward structural recursions. -/

/-- `replace(/\|(?!\|)/g, '||')`: double every `|` not followed by `|`. -/
def expandPipes : List Char → List Char
  | [] => []
  | '|' :: rest =>
    if rest.head? = some '|' then '|' :: expandPipes rest
    else '|' :: '|' :: expandPipes rest
  | c :: rest => c :: expandPipes rest

/-- `replace(/&(?!&)/g, '&&')`: double every `&` not followed by `&`. -/
def expandAmps : List Char → List Char
  | [] => []
  | '&' :: rest =>
    if rest.head? = some '&' then '&' :: expandAmps rest
    else '&' :: '&' :: expandAmps rest
  | c :: rest => c :: expandAmps rest

/-- `replace(/\|\|\|/g, '||')`: each non-overlapping `|||`, scanned left to
right, becomes `||`. -/
def collapsePipes : List Char → List Char
  | '|' :: '|' :: '|' :: rest => '|' :: '|' :: collapsePipes rest
  | c :: rest => c :: collapsePipes rest
  | [] => []

/-- `replace(/&&&/g, '&&')`: each non-overlapping `&&&`, scanned left to
right, becomes `&&`. -/
def collapseAmps : List Char → List Char
  | '&' :: '&' :: '&' :: rest => '&' :: '&' :: collapseAmps rest
  | c :: rest => c :: collapseAmps rest
  | [] => []

/-- The full operator normalization producing `jsExpression` (lines 100–107). -/
def normalizeOps (l : List Char) : List Char :=
  collapseAmps (collapsePipes (expandAmps (expandPipes l)))

/-! ### Token extraction (source lines 118–120)

`jsExpression.match(permissionRegex) || []` with

`/(?:\*|\?|[a-zA-Z_][a-zA-Z0-9_.*?]*(?:\.[a-zA-Z0-9_.*?]*)*|true|false)(?![|&])/g`.

The backtracking behaviour of this pattern reduces to the following closed
form (validated against a live regex engine):

* at a `*` or `?`: the single character matches unless the negative
  lookahead `(?![|&])` fails, i.e. unless the next character is `|` or `&`
  (no shorter candidate exists, so the alternative then fails);
* at a character of class `[a-zA-Z_]`: the greedy candidate is the maximal
  run of `[a-zA-Z0-9_.*?]` characters.  If the character after the run is
  `|` or `&` the engine backs off exactly one character, after which the
  lookahead sees that (class) character and succeeds; if the run is empty
  nothing can be given back and the alternative fails;
* the trailing `true`/`false` alternatives are unreachable: they could only
  apply at a `t`/`f`, where the (earlier) identifier alternative fails only
  with an empty run, while `true`/`false` need a run of length ≥ 3;
* on failure the scan advances one character, on success it resumes after
  the match. -/

/-- Is the next character a logical-operator character (`(?![|&])` test)? -/
def nextIsOp (l : List Char) : Bool :=
  l.head? = some '|' || l.head? = some '&'

/-- One attempted match of `permissionRegex` at the position whose first
character is `c` and remainder is `rest`.  Returns the matched token and the
rest of the input after the match. -/
def tryMatch (c : Char) (rest : List Char) : Option (List Char × List Char) :=
  if c = '*' || c = '?' then
    if nextIsOp rest then none else some ([c], rest)
  else if isIdentStart c then
    if !nextIsOp (rest.dropWhile isIdentChar) then
      some (c :: rest.takeWhile isIdentChar, rest.dropWhile isIdentChar)
    else if (rest.takeWhile isIdentChar).isEmpty then none
    else
      some (c :: (rest.takeWhile isIdentChar).dropLast,
        (rest.takeWhile isIdentChar).drop ((rest.takeWhile isIdentChar).length - 1)
          ++ rest.dropWhile isIdentChar)
  else none

/-- Fuel-driven scan; `fuel` bounds the number of scan steps.  Each step
either emits a (non-empty) match and resumes after it, or advances one
character, exactly as a JavaScript global regex match does. -/
def scanTokensF : Nat → List Char → List (List Char)
  | 0, _ => []
  | _ + 1, [] => []
  | fuel + 1, c :: rest =>
    match tryMatch c rest with
    | some (tok, rest') => tok :: scanTokensF fuel rest'
    | none => scanTokensF fuel rest

/-- All matches of `permissionRegex` over the input, in order
(`jsExpression.match(permissionRegex) || []`).  A fuel of `length + 1` is
sufficient since every step strictly consumes input. -/
def scanTokens (l : List Char) : List (List Char) :=
  scanTokensF (l.length + 1) l

/-! ### Model of `new RegExp` / `RegExp.prototype.test` (source lines 72–81)

`checkSimplePermissionPattern` builds a regex source string
`'^' + pattern.replace(/\./g,'\\.').replace(/\*/g,'.*').replace(/\?/g,'.') + '$'`
and then constructs `new RegExp(...)` — which throws a `SyntaxError` on an
invalid pattern (e.g. an unterminated group) — and tests each granted
permission for a full (anchored) match.

The regex AST below covers the constructs reachable from that builder:
literal characters, identity escapes, `.`, and the `*`/`+` quantifiers.
Constructs outside this fragment (groups, classes, alternation, braces,
inner anchors, class escapes) make the parser return `none`, modelling a
construction-time throw; every theorem below only ever relies on the
parser's verdict at strings where it agrees with JavaScript. -/
inductive RAtom where
  | lit (c : Char)
  | dot
  deriving DecidableEq, Repr

inductive RItem where
  | once (a : RAtom)
  | star (a : RAtom)
  | plus (a : RAtom)
  deriving DecidableEq, Repr

/-- Punctuation accepted after a backslash as an identity escape. -/
def isIdentityEscape (c : Char) : Bool :=
  c = '.' || c = '*' || c = '+' || c = '?' || c = '(' || c = ')' ||
  c = '[' || c = ']' || c = '{' || c = '}' || c = '|' || c = '^' ||
  c = '$' || c = '\\' || c = '/' || c = '-'

/-- Regex metacharacters my parser refuses as bare atoms (either invalid in
JavaScript at that position, like a dangling quantifier or `(` without `)`,
or outside the modelled fragment). -/
def isBareMeta (c : Char) : Bool :=
  c = '(' || c = ')' || c = '[' || c = ']' || c = '{' || c = '}' ||
  c = '|' || c = '*' || c = '+' || c = '?' || c = '^' || c = '$'

/-- One atom of the regex body: the atom and the input after it, or `none`
for an invalid/bare-meta position. -/
def parseAtom (c : Char) (rest : List Char) : Option (RAtom × List Char) :=
  if c = '\\' then
    match rest with
    | [] => none
    | e :: rest2 => if isIdentityEscape e then some (.lit e, rest2) else none
  else if c = '.' then some (.dot, rest)
  else if isBareMeta c then none
  else some (.lit c, rest)

/-- Fuel-driven parse of a regex body: an atom, an optional `*`/`+`
quantifier, then the remaining items. -/
def parseItemsF : Nat → List Char → Option (List RItem)
  | 0, _ => none
  | _ + 1, [] => some []
  | fuel + 1, c :: rest =>
    match parseAtom c rest with
    | none => none
    | some (a, rest2) =>
      if rest2.head? = some '*' then
        (parseItemsF fuel rest2.tail).map (RItem.star a :: ·)
      else if rest2.head? = some '+' then
        (parseItemsF fuel rest2.tail).map (RItem.plus a :: ·)
      else (parseItemsF fuel rest2).map (RItem.once a :: ·)

/-- Parse the body (between the added `^` and `$`) of a regex source string
into a sequence of possibly-quantified atoms; every step consumes at least
one character, so `length + 1` scan steps suffice. -/
def parseItems (l : List Char) : Option (List RItem) :=
  parseItemsF (l.length + 1) l

/-- Does an atom match one character?  JavaScript `.` (without the `s` flag)
matches everything but line terminators. -/
def amatch : RAtom → Char → Bool
  | .lit c', c => c = c'
  | .dot, c => !(c = '\n' || c = '\r' || c = Char.ofNat 0x2028 || c = Char.ofNat 0x2029)

/-- Fuel-driven full (anchored) match of an item sequence against a string. -/
def reMatchF : Nat → List RItem → List Char → Bool
  | 0, _, _ => false
  | _ + 1, [], s => s.isEmpty
  | fuel + 1, .once a :: rs, s =>
    match s with
    | [] => false
    | c :: s' => amatch a c && reMatchF fuel rs s'
  | fuel + 1, .star a :: rs, s =>
    reMatchF fuel rs s ||
      (match s with
       | [] => false
       | c :: s' => amatch a c && reMatchF fuel (.star a :: rs) s')
  | fuel + 1, .plus a :: rs, s =>
    match s with
    | [] => false
    | c :: s' => amatch a c && reMatchF fuel (.star a :: rs) s'

/-- Anchored match; `r.length + s.length + 1` scan steps always suffice since
every recursive call shrinks the item list or the string. -/
def reMatch (r : List RItem) (s : List Char) : Bool :=
  reMatchF (r.length + s.length + 1) r s

/-- The pattern-to-regex-source translation of lines 72–78, as the three
sequential global single-character replaces of the source (`\.` for `.`,
then `.*` for `*`, then `.` for `?`); anchoring is implicit in `reMatch`. -/
def buildRegexBody (pattern : List Char) : List Char :=
  ((pattern.flatMap fun c => if c = '.' then ['\\', '.'] else [c]).flatMap
    fun c => if c = '*' then ['.', '*'] else [c]).flatMap
    fun c => if c = '?' then ['.'] else [c]

deriving instance DecidableEq for Except

/-! ### `checkSimplePermissionPattern` (source lines 62–82)

`Except Unit Bool` models the fact that the function can throw (the
`new RegExp` construction is not wrapped in any `try`): `.error ()` is an
uncaught `SyntaxError` propagating to the caller. -/
def checkSimpleL (pattern : List Char) (userPermissions : List (List Char)) :
    Except Unit Bool :=
  if jsTrim pattern = "true".data then .ok true
  else if jsTrim pattern = "false".data then .ok false
  else if jsTrim pattern = "*".data then .ok true
  else
    match parseItems (buildRegexBody pattern) with
    | none => .error ()
    | some r => .ok (userPermissions.any fun p => reMatch r p)

/-! ### Model of `Function('"use strict"; return (…)')()` (source lines 157–163)

The residual expression handed to the dynamic `Function` constructor is the
normalized input with matched permission tokens replaced by `true`/`false`.
The model parses and evaluates the JavaScript expression fragment reachable
there: boolean literals, identifiers (whose evaluation throws a
`ReferenceError` — the residual identifiers of interest shadow no global),
property access, subtraction, `||` and `&&` with JavaScript's precedence,
associativity, short-circuiting and truthiness.  Anything outside the
fragment is mapped to a parse failure; within the pipeline this coincides
observably with JavaScript, where such residues raise `SyntaxError` or
`ReferenceError` — either way the `catch` turns the call into `false`. -/
inductive JSVal where
  | bool (b : Bool)
  | num (n : Int)
  | nan
  | undef
  deriving DecidableEq, Repr

/-- JavaScript truthiness of the modelled values. -/
def jsTruthy : JSVal → Bool
  | .bool b => b
  | .num n => n ≠ 0
  | .nan => false
  | .undef => false

/-- `ToNumber`, with `none` standing for NaN. -/
def jsToNum : JSVal → Option Int
  | .bool b => some (if b then 1 else 0)
  | .num n => some n
  | .nan => none
  | .undef => none

inductive JTok where
  | lparen
  | rparen
  | orop
  | andop
  | minus
  | dotT
  | ident (name : List Char)
  deriving DecidableEq, Repr

def isJsIdentStart (c : Char) : Bool :=
  isAsciiAlpha c || c = '_' || c = '$'

def isJsIdentChar (c : Char) : Bool :=
  isJsIdentStart c || isAsciiDigit c

/-- Tokenizer for the residual JavaScript expression.  A single `|` or `&`
never occurs in a pipeline residue (normalization leaves operator runs of
length ≥ 2 and substitution never adds or removes such characters), so those
and all other out-of-fragment characters map to `none`. -/
def jsTokenizeF : Nat → List Char → Option (List JTok)
  | 0, _ => none
  | _ + 1, [] => some []
  | fuel + 1, c :: rest =>
    if isJsSpace c then jsTokenizeF fuel rest
    else if c = '(' then (jsTokenizeF fuel rest).map (JTok.lparen :: ·)
    else if c = ')' then (jsTokenizeF fuel rest).map (JTok.rparen :: ·)
    else if c = '|' then
      match rest with
      | '|' :: r2 => (jsTokenizeF fuel r2).map (JTok.orop :: ·)
      | _ => none
    else if c = '&' then
      match rest with
      | '&' :: r2 => (jsTokenizeF fuel r2).map (JTok.andop :: ·)
      | _ => none
    else if c = '-' then (jsTokenizeF fuel rest).map (JTok.minus :: ·)
    else if c = '.' then (jsTokenizeF fuel rest).map (JTok.dotT :: ·)
    else if isJsIdentStart c then
      (jsTokenizeF fuel (rest.dropWhile isJsIdentChar)).map
        (JTok.ident (c :: rest.takeWhile isJsIdentChar) :: ·)
    else none

inductive JExpr where
  | litB (b : Bool)
  | idn (name : List Char)
  | member (e : JExpr) (field : List Char)
  | sub (l r : JExpr)
  | orJ (l r : JExpr)
  | andJ (l r : JExpr)
  deriving DecidableEq, Repr

mutual

/-- `orExpr := andExpr ('||' andExpr)*` (lowest precedence). -/
def parseOrF : Nat → List JTok → Option (JExpr × List JTok)
  | 0, _ => none
  | fuel + 1, toks =>
    match parseAndF fuel toks with
    | none => none
    | some (e, rest) => parseOrTail fuel e rest

def parseOrTail : Nat → JExpr → List JTok → Option (JExpr × List JTok)
  | 0, _, _ => none
  | fuel + 1, acc, .orop :: rest =>
    match parseAndF fuel rest with
    | none => none
    | some (e, rest') => parseOrTail fuel (.orJ acc e) rest'
  | _ + 1, acc, toks => some (acc, toks)

/-- `andExpr := subExpr ('&&' subExpr)*`. -/
def parseAndF : Nat → List JTok → Option (JExpr × List JTok)
  | 0, _ => none
  | fuel + 1, toks =>
    match parseSubF fuel toks with
    | none => none
    | some (e, rest) => parseAndTail fuel e rest

def parseAndTail : Nat → JExpr → List JTok → Option (JExpr × List JTok)
  | 0, _, _ => none
  | fuel + 1, acc, .andop :: rest =>
    match parseSubF fuel rest with
    | none => none
    | some (e, rest') => parseAndTail fuel (.andJ acc e) rest'
  | _ + 1, acc, toks => some (acc, toks)

/-- `subExpr := postExpr ('-' postExpr)*` (additive level). -/
def parseSubF : Nat → List JTok → Option (JExpr × List JTok)
  | 0, _ => none
  | fuel + 1, toks =>
    match parsePostF fuel toks with
    | none => none
    | some (e, rest) => parseSubTail fuel e rest

def parseSubTail : Nat → JExpr → List JTok → Option (JExpr × List JTok)
  | 0, _, _ => none
  | fuel + 1, acc, .minus :: rest =>
    match parsePostF fuel rest with
    | none => none
    | some (e, rest') => parseSubTail fuel (.sub acc e) rest'
  | _ + 1, acc, toks => some (acc, toks)

/-- `postExpr := primary ('.' IDENT)*` (property access). -/
def parsePostF : Nat → List JTok → Option (JExpr × List JTok)
  | 0, _ => none
  | fuel + 1, toks =>
    match parsePrimF fuel toks with
    | none => none
    | some (e, rest) => parsePostTail fuel e rest

def parsePostTail : Nat → JExpr → List JTok → Option (JExpr × List JTok)
  | 0, _, _ => none
  | fuel + 1, acc, .dotT :: .ident f :: rest => parsePostTail fuel (.member acc f) rest
  | _ + 1, _, .dotT :: _ => none
  | _ + 1, acc, toks => some (acc, toks)

/-- `primary := 'true' | 'false' | IDENT | '(' orExpr ')'`. -/
def parsePrimF : Nat → List JTok → Option (JExpr × List JTok)
  | 0, _ => none
  | _ + 1, .ident n :: rest =>
    if n = "true".data then some (.litB true, rest)
    else if n = "false".data then some (.litB false, rest)
    else some (.idn n, rest)
  | fuel + 1, .lparen :: rest =>
    match parseOrF fuel rest with
    | some (e, .rparen :: rest') => some (e, rest')
    | _ => none
  | _ + 1, _ => none

end

/-- Evaluate the modelled JavaScript expression.  `.error ()` is a thrown
`ReferenceError` (unbound identifier) or `TypeError` (property of
`undefined`). -/
def evalJS : JExpr → Except Unit JSVal
  | .litB b => .ok (.bool b)
  | .idn _ => .error ()
  | .member e _ =>
    match evalJS e with
    | .error e' => .error e'
    | .ok .undef => .error ()
    | .ok _ => .ok .undef
  | .sub l r => do
    let vl ← evalJS l
    let vr ← evalJS r
    pure (match jsToNum vl, jsToNum vr with
      | some a, some b => .num (a - b)
      | _, _ => .nan)
  | .orJ l r =>
    match evalJS l with
    | .error e => .error e
    | .ok v => if jsTruthy v then .ok v else evalJS r
  | .andJ l r =>
    match evalJS l with
    | .error e => .error e
    | .ok v => if jsTruthy v then evalJS r else .ok v

/-- `Function('"use strict"; return (' + s + ')')()`: parse the full string
as one expression, then evaluate it. -/
def jsEvalStr (s : List Char) : Except Unit JSVal :=
  match jsTokenizeF (s.length + 1) s with
  | none => .error ()
  | some toks =>
    match parseOrF (4 * toks.length + 8) toks with
    | some (e, []) => evalJS e
    | _ => .error ()

/-! ### Substitution of resolved tokens (source lines 122–155) -/

/-- `hasPermissionResult.toString()`. -/
def boolText (b : Bool) : List Char :=
  if b then "true".data else "false".data

/-- `new RegExp('\\' + w + '(?![a-zA-Z0-9_.])', 'g')` replacement for the
standalone wildcard tokens `*` and `?`: every occurrence of the character
not followed by a word character or a dot is replaced. -/
def replaceWildcard (w : Char) (rep : List Char) : List Char → List Char
  | [] => []
  | c :: rest =>
    if c = w && !(match rest.head? with
        | some d => isWordChar d || d = '.'
        | none => false) then
      rep ++ replaceWildcard w rep rest
    else c :: replaceWildcard w rep rest

/-- Left side of `\b` before a token that starts with a word character:
boundary iff at the start of the string or after a non-word character. -/
def leftBound (prev : Option Char) : Bool :=
  match prev with
  | none => true
  | some p => !isWordChar p

/-- Right side of `\b` after the token: boundary iff the word-character
status changes between the token's last character and the next source
character (end of string counting as non-word). -/
def rightBound (tokLast : Option Char) (after : List Char) : Bool :=
  (match tokLast with
   | some c => isWordChar c
   | none => true)
  != (match after.head? with
      | some d => isWordChar d
      | none => false)

/-- `evaluatedExpression.replace(new RegExp('\\b' + esc(tok) + '\\b', 'g'), rep)`:
left-to-right, non-overlapping, replacements not rescanned, boundary tests
evaluated on the source string. -/
def replaceBoundedF (tok rep : List Char) : Nat → Option Char → List Char → List Char
  | 0, _, l => l
  | _ + 1, _, [] => []
  | fuel + 1, prev, c :: rest =>
    if tok.isPrefixOf (c :: rest) && leftBound prev &&
        rightBound tok.getLast? ((c :: rest).drop tok.length) then
      rep ++ replaceBoundedF tok rep fuel tok.getLast? ((c :: rest).drop tok.length)
    else c :: replaceBoundedF tok rep fuel (some c) rest

def replaceBounded (tok rep cur : List Char) : List Char :=
  replaceBoundedF tok rep (cur.length + 1) none cur

/-- One iteration of the substitution loop: boolean-literal tokens are
skipped; wildcard tokens use the lookahead replacement, all others the
word-boundary replacement. -/
def applyToken (tok : List Char) (b : Bool) (cur : List Char) : List Char :=
  if tok = "*".data || tok = "?".data then
    match tok with
    | [w] => replaceWildcard w (boolText b) cur
    | _ => cur
  else replaceBounded tok (boolText b) cur

/-- The substitution loop of lines 125–155: resolve each matched token with
`checkSimplePermissionPattern` (whose `SyntaxError` would propagate — it is
outside the `try`) and rewrite the working expression. -/
def resolveTokens (granted : List (List Char)) :
    List (List Char) → List Char → Except Unit (List Char)
  | [], cur => .ok cur
  | tok :: rest, cur =>
    if tok = "true".data || tok = "false".data then resolveTokens granted rest cur
    else
      match checkSimpleL tok granted with
      | .error e => .error e
      | .ok b => resolveTokens granted rest (applyToken tok b cur)

/-! ### `evaluatePermissionExpression` (source lines 93–164) -/

/-- The whole expression evaluator: trim-shortcuts for boolean literals,
operator normalization, token extraction, substitution, then the guarded
dynamic evaluation whose exceptions are caught and turned into `false`.
The value is a `JSVal` since the dynamic evaluation can produce non-boolean
values (e.g. `false-false` is `0`) despite the declared return type. -/
def evalExprL (expr : List Char) (granted : List (List Char)) : Except Unit JSVal :=
  if jsTrim expr = "true".data then .ok (.bool true)
  else if jsTrim expr = "false".data then .ok (.bool false)
  else
    match resolveTokens granted (scanTokens (normalizeOps expr)) (normalizeOps expr) with
    | .error e => .error e
    | .ok residual =>
      .ok (match jsEvalStr residual with
        | .error _ => .bool false
        | .ok v => v)

/-! ### `hasPermissionPattern`, `hasPermission`, bulk helpers (lines 23–57,
177–206) and the `userPermissions` selection of the hook (lines 4–10). -/

/-- Substring test, for `String.prototype.includes` with a multi-character
needle. -/
def hasSub (needle : List Char) : List Char → Bool
  | [] => needle.isEmpty
  | c :: rest => needle.isPrefixOf (c :: rest) || hasSub needle rest

/-- `hasPermissionPattern` (lines 177–190): route to the expression
evaluator when a logical-operator character occurs, else to the simple
pattern matcher. -/
def hasPermissionPatternL (pattern : List Char) (granted : List (List Char)) :
    Except Unit JSVal :=
  if hasSub "||".data pattern || hasSub "&&".data pattern ||
      pattern.contains '|' || pattern.contains '&' then
    evalExprL pattern granted
  else
    match checkSimpleL pattern granted with
    | .error e => .error e
    | .ok b => .ok (.bool b)

/-- `hasPermission` (lines 23–41): boolean-literal shortcut, then pattern
routing on wildcard/operator characters, else exact membership. -/
def hasPermissionL (permission : List Char) (granted : List (List Char)) :
    Except Unit JSVal :=
  if jsTrim permission = "true".data then .ok (.bool true)
  else if jsTrim permission = "false".data then .ok (.bool false)
  else if permission.contains '*' || permission.contains '?' ||
      hasSub "||".data permission || hasSub "&&".data permission ||
      permission.contains '|' || permission.contains '&' then
    hasPermissionPatternL permission granted
  else .ok (.bool (granted.contains permission))

/-! String-level API, mirroring the hook's exported functions. -/
def evaluatePermissionExpression (expr : String) (granted : List String) :
    Except Unit JSVal :=
  evalExprL expr.data (granted.map String.data)

def checkSimplePermissionPattern (pattern : String) (granted : List String) :
    Except Unit Bool :=
  checkSimpleL pattern.data (granted.map String.data)

def hasPermissionPattern (pattern : String) (granted : List String) :
    Except Unit JSVal :=
  hasPermissionPatternL pattern.data (granted.map String.data)

def hasPermission (permission : String) (granted : List String) :
    Except Unit JSVal :=
  hasPermissionL permission.data (granted.map String.data)

/-- `hasAnyPermission` (lines 46–48): exact-membership `some`. -/
def hasAnyPermission (permissions : List String) (granted : List String) : Bool :=
  permissions.any fun p => granted.contains p

/-- `hasAllPermissions` (lines 53–57): exact-membership `every`. -/
def hasAllPermissions (permissions : List String) (granted : List String) : Bool :=
  permissions.all fun p => granted.contains p

/-- `hasAnyPattern` (lines 196–198): `Array.prototype.some` over
`hasPermissionPattern`, short-circuiting on the first truthy result; an
exception thrown by an inspected element propagates. -/
def hasAnyPattern (patterns : List String) (granted : List String) :
    Except Unit Bool :=
  match patterns with
  | [] => .ok false
  | p :: rest =>
    match hasPermissionPattern p granted with
    | .error e => .error e
    | .ok v => if jsTruthy v then .ok true else hasAnyPattern rest granted

/-- `hasAllPatterns` (lines 204–206): `Array.prototype.every` over
`hasPermissionPattern`. -/
def hasAllPatterns (patterns : List String) (granted : List String) :
    Except Unit Bool :=
  match patterns with
  | [] => .ok true
  | p :: rest =>
    match hasPermissionPattern p granted with
    | .error e => .error e
    | .ok v => if jsTruthy v then hasAllPatterns rest granted else .ok false

/-- The `userPermissions` selection of `usePermissions` (lines 4–10):
`permissions !== undefined ? permissions : auth?.user?.permissions || []`.
`authPermissions = none` models a missing/unauthenticated session. -/
def userPermissions (authPermissions : Option (List String))
    (permissionsArg : Option (List String)) : List String :=
  match permissionsArg with
  | some ps => ps
  | none => authPermissions.getD []

/-- Per-character effect of the three escape replaces of lines 72–75. -/
def escChar (c : Char) : List Char :=
  if c = '.' then ['\\', '.']
  else if c = '*' then ['.', '*']
  else if c = '?' then ['.']
  else [c]

/-- Characters whose compiled form is a literal: no regex meaning, not
subject to any of the three replaces except the harmless dot escape. -/
def isPlainLiteral (c : Char) : Bool :=
  isAsciiAlpha c || isAsciiDigit c || c = '_' || c = '.' || c = '-' ||
  c = ':' || c = ' '

/-- Shape of any token matched by `permissionRegex`. -/
def tokOK (tok : List Char) : Prop :=
  tok = ['*'] ∨ tok = ['?'] ∨
    ∃ c run, tok = c :: run ∧ isIdentStart c = true ∧ run.all isIdentChar = true

example : normalizeOps "a|b".data = "a||b".data := by decide

example : normalizeOps "a||b".data = "a||b".data := by decide

example : normalizeOps "a|||b".data = "a|||b".data := by decide

example : normalizeOps "a | b".data = "a || b".data := by decide

example : normalizeOps "a && b || c".data = "a && b || c".data := by decide

example : normalizeOps "a&b".data = "a&&b".data := by decide

theorem tryMatch_rest_length {c : Char} {rest tok rest' : List Char}
    (h : tryMatch c rest = some (tok, rest')) : rest'.length ≤ rest.length := by
  have hlen : (rest.takeWhile isIdentChar).length + (rest.dropWhile isIdentChar).length
      = rest.length := by
    rw [← List.length_append, List.takeWhile_append_dropWhile]
  unfold tryMatch at h
  split at h
  · split at h
    · exact absurd h (by simp)
    · simp only [Option.some.injEq, Prod.mk.injEq] at h
      obtain ⟨-, rfl⟩ := h
      exact le_rfl
  · split at h
    · split at h
      · simp only [Option.some.injEq, Prod.mk.injEq] at h
        obtain ⟨-, rfl⟩ := h
        omega
      · split at h
        · exact absurd h (by simp)
        · simp only [Option.some.injEq, Prod.mk.injEq] at h
          obtain ⟨-, rfl⟩ := h
          rename_i hne
          have hpos : 0 < (rest.takeWhile isIdentChar).length := by
            cases hrun : rest.takeWhile isIdentChar with
            | nil => rw [hrun] at hne; simp at hne
            | cons x xs => simp [hrun]
          simp only [List.length_append, List.length_drop]
          omega
    · exact absurd h (by simp)

example : scanTokens "users.create||posts.view".data
    = ["users.creat".data, "posts.view".data] := by decide

example : scanTokens "user-profile.edit||api-access.read".data
    = ["user".data, "profile.edi".data, "api".data, "access.read".data] := by decide

example : scanTokens "a||b".data = ["b".data] := by decide

example : scanTokens "a && b || c".data = ["a".data, "b".data, "c".data] := by decide

example : scanTokens "*||b".data = ["b".data] := by decide

example : scanTokens "* || b".data = ["*".data, "b".data] := by decide

example : scanTokens "true||b".data = ["tru".data, "b".data] := by decide

example : scanTokens "x||x".data = ["x".data] := by decide

example : buildRegexBody "users.*".data = "users\\..*".data := by decide

example : parseItems (buildRegexBody "users.*".data)
    = some [.once (.lit 'u'), .once (.lit 's'), .once (.lit 'e'), .once (.lit 'r'),
        .once (.lit 's'), .once (.lit '.'), .star .dot] := by decide

example : parseItems "a+".data = some [.plus (.lit 'a')] := by decide

example : parseItems "(".data = none := by decide

example : reMatch [.plus (.lit 'a')] "aa".data = true := by decide

example : reMatch [.once (.lit 'a'), .star .dot] "a".data = true := by decide

example : checkSimpleL "users.*".data ["users.create".data] = .ok true := by decide

example : checkSimpleL "users.*".data ["posts.view".data] = .ok false := by decide

example : checkSimpleL "(".data [] = .error () := by decide

example : checkSimpleL "a+".data ["aa".data] = .ok true := by decide

example : checkSimpleL " * ".data [] = .ok true := by decide

example : checkSimpleL "?".data ["a".data] = .ok true := by decide

example : checkSimpleL "user".data ["user-profile.edit".data] = .ok false := by decide

example : jsEvalStr "true || false".data = .ok (.bool true) := by decide

example : jsEvalStr "true && false || true".data = .ok (.bool true) := by decide

example : jsEvalStr "a||true".data = .error () := by decide

example : jsEvalStr "false-profile.edit||false-false".data = .error () := by decide

example : jsEvalStr "*||false".data = .error () := by decide

example : jsEvalStr "true ||| false".data = .error () := by decide

example : jsEvalStr "false-false".data = .ok (.num 0) := by decide

example : jsEvalStr "(true || false) && true".data = .ok (.bool true) := by decide

example : replaceBounded "a".data "true".data "a || b".data = "true || b".data := by decide

example : replaceBounded "user".data "false".data "user-profile.edit||api-access.read".data
    = "false-profile.edit||api-access.read".data := by decide

example : replaceBounded "profile.edi".data "false".data
    "false-profile.edit||api-access.read".data
    = "false-profile.edit||api-access.read".data := by decide

example : replaceBounded "b".data "false".data "a||b".data = "a||false".data := by decide

example : replaceBounded "x".data "true".data "x||x.y".data = "true||true.y".data := by decide

example : replaceWildcard '*' "true".data "* || b".data = "true || b".data := by decide

example : replaceWildcard '*' "true".data "*y||b".data = "*y||b".data := by decide

example : evaluatePermissionExpression "a||b" ["a"] = .ok (.bool false) := by decide

example : evaluatePermissionExpression "a | b" ["a"] = .ok (.bool true) := by decide

example : evaluatePermissionExpression "user-profile.edit||api-access.read"
    ["user-profile.edit", "api-access.read"] = .ok (.bool false) := by decide

example : evaluatePermissionExpression "user-profile.edit&&api-access.read"
    ["user-profile.edit", "api-access.read"] = .ok (.bool false) := by decide

example : evaluatePermissionExpression "a && b || c" ["a", "c"] = .ok (.bool true) := by decide

example : hasPermissionPattern "(" [] = .error () := by decide

example : evaluatePermissionExpression "users.create||posts.view"
    ["users.create", "posts.view"] = .ok (.bool false) := by decide

example : evaluatePermissionExpression "(users.create || posts.create) && admin.access"
    ["users.create", "admin.access"] = .ok (.bool true) := by decide

example : evaluatePermissionExpression "users.create || posts.view"
    ["users.create"] = .ok (.bool true) := by decide

example : hasPermission "users.create" ["users.create"] = .ok (.bool true) := by decide

example : hasPermission "user.create+" ["user.create+"] = .ok (.bool true) := by decide

example : evaluatePermissionExpression "true && false" ["x"] = .ok (.bool false) := by decide

/-! ## Claim theorems -/

/-- Claim C1: the claim asserts spacing and single/double operator form never
change the result of `evaluateExpression`; on the code they do.  With
`granted = ["a"]`, the spaced form `"a | b"` evaluates to `true`, but the
no-space form `"a||b"` (which also equals `"a||b"` with all spaces removed)
evaluates to `false`: the permission regex's negative lookahead `(?![|&])`
prevents the leaf adjacent to `||` from being matched and substituted, the
residual identifier `a` raises a `ReferenceError` in the dynamic evaluation,
and the `catch` converts it into `false`.  The repository's own test suite
(`logical-operators-no-spaces.test.tsx`, `hyphenated-permissions.test.tsx`)
expects the no-space forms to work, so this is a defect of the code rather
than of the specification. -/
theorem C1_no_space_operator_divergence :
    evaluatePermissionExpression "a||b" ["a"] = .ok (.bool false) ∧
    evaluatePermissionExpression "a | b" ["a"] = .ok (.bool true) ∧
    evaluatePermissionExpression "users.create||posts.view"
      ["users.create", "posts.view"] = .ok (.bool false) ∧
    evaluatePermissionExpression "users.create || posts.view"
      ["users.create", "posts.view"] = .ok (.bool true) := by
  refine ⟨by decide, by decide, by decide, by decide⟩

/-- Claim C2: hyphenated identifiers are *not* preserved through expression
evaluation.  With `granted = ["user-profile.edit", "api-access.read"]` both
`evaluateExpression("user-profile.edit||api-access.read")` and the `&&`
variant return `false`, not `true` as the claim (and the repository's own
`hyphenated-permissions.test.tsx`) state: the identifier class of
`permissionRegex` lacks `-`, the tokens are split at each hyphen
(`user`, `profile.edi`, `api`, `access.read`), the fragment `profile.edi`
is never substituted for want of a word boundary, and the residual
expression `false-profile.edit||false-false` raises a `ReferenceError`
that the `catch` converts into `false`. -/
theorem C2_hyphen_not_preserved :
    evaluatePermissionExpression "user-profile.edit||api-access.read"
      ["user-profile.edit", "api-access.read"] = .ok (.bool false) ∧
    evaluatePermissionExpression "user-profile.edit&&api-access.read"
      ["user-profile.edit", "api-access.read"] = .ok (.bool false) ∧
    scanTokens (normalizeOps "user-profile.edit||api-access.read".data)
      = ["user".data, "profile.edi".data, "api".data, "access.read".data] := by
  refine ⟨by decide, by decide, by decide⟩

/-- Claim C5: AND binds tighter than OR — with `granted = ["a","c"]` the
expression `"a && b || c"` evaluates to `true`, i.e. `(a&&b)||c` =
`false||true`. -/
theorem C5_and_binds_tighter_than_or :
    evaluatePermissionExpression "a && b || c" ["a", "c"] = .ok (.bool true) := by
  decide

/-- Claim C6: a pattern that trims to exactly `*` matches unconditionally,
for every granted set (including the empty one). -/
theorem C6_universal_wildcard (p : String) (granted : List String)
    (h : jsTrim p.data = "*".data) :
    checkSimplePermissionPattern p granted = .ok true := by
  unfold checkSimplePermissionPattern checkSimpleL
  rw [h]
  rw [if_neg (by decide), if_neg (by decide), if_pos rfl]

/-- Witness for C6 at the concrete pattern `" * "` and the empty granted
set. -/
theorem C6_universal_wildcard_witness :
    jsTrim " * ".data = "*".data ∧
    checkSimplePermissionPattern " * " [] = .ok true := by
  exact ⟨by decide, C6_universal_wildcard " * " [] (by decide)⟩

/-- Claim C7: the bulk helpers on the empty sequence return their logical
identities: `every` over `[]` is `true` (vacuous truth) and `some` over `[]`
is `false`, in both the exact-membership and the pattern-based variants. -/
theorem C7_empty_bulk_identities (granted : List String) :
    hasAllPermissions [] granted = true ∧
    hasAnyPermission [] granted = false ∧
    hasAllPatterns [] granted = .ok true ∧
    hasAnyPattern [] granted = .ok false := by
  exact ⟨rfl, rfl, rfl, rfl⟩

/-- Claim C10: an explicitly provided permissions array (even `[]`)
completely replaces the auth-session permissions; the checks depend on the
session only through `userPermissions`, so they ignore the session whenever
the argument is present; with no argument the hook falls back to the
session's permissions or `[]`. -/
theorem C10_explicit_permissions_override
    (auth auth' : Option (List String)) (ps : List String) (q : String) :
    userPermissions auth (some ps) = ps ∧
    userPermissions auth none = auth.getD [] ∧
    userPermissions none none = [] ∧
    hasPermission q (userPermissions auth (some ps)) =
      hasPermission q (userPermissions auth' (some ps)) := by
  exact ⟨rfl, rfl, rfl, rfl⟩

/-- Claim C3, counterexample: the pattern matcher *can* raise.  On the
pattern `"("` (no operators, so `hasPermissionPattern` routes to
`checkSimplePermissionPattern`) the built regex source `^($` is an
unterminated group, and the `new RegExp` throw — modelled as `.error ()` —
propagates to the caller: there is no `try` around it. -/
theorem C3_matcher_can_raise :
    hasPermissionPattern "(" [] = .error () ∧
    checkSimplePermissionPattern "(" [] = .error () := by
  refine ⟨by decide, by decide⟩

/-- Claim C4, counterexample: for the pattern `"a+"` — which contains no
`*`, `?` or operator characters — the matcher is not exact membership:
only `.` is escaped, so `+` keeps its regex meaning, `^a+$` matches `"aa"`,
and `matches("a+", ["aa"])` is `true` while `["aa"].contains("a+")` is
`false`. -/
theorem C4_metachar_not_literal :
    checkSimplePermissionPattern "a+" ["aa"] = .ok true ∧
    (["aa"] : List String).contains "a+" = false ∧
    ("a+".data.contains '*' || "a+".data.contains '?' ||
      "a+".data.contains '|' || "a+".data.contains '&') = false := by
  refine ⟨by decide, by decide, by decide⟩

/-- Claim C8, counterexample: `hasAnyPermission` (one of the two bulk `some`
helpers the claim covers) tests exact membership only: with
`patterns = ["users.*"]` and `granted = ["users.create"]` it returns
`false` although the element evaluates to `true` under the pattern
matcher, so the claimed equivalence fails for it. -/
theorem C8_hasAnyPermission_ignores_patterns :
    hasAnyPermission ["users.*"] ["users.create"] = false ∧
    checkSimplePermissionPattern "users.*" ["users.create"] = .ok true := by
  refine ⟨by decide, by decide⟩

/-- Claim C9, counterexample: normalization of `"a|||b"` first expands the
last pipe (the run becomes `||||`) and the triple-collapse pass then
rewrites only the leftmost non-overlapping triple, leaving `a|||b` — a run
of three — rather than the canonical `a||b` the claim requires for runs of
length ≥ 3. -/
theorem C9_long_runs_not_collapsed :
    expandAmps (expandPipes "a|||b".data) = "a||||b".data ∧
    normalizeOps "a|||b".data = "a|||b".data ∧
    normalizeOps "a|||b".data ≠ "a||b".data := by
  refine ⟨by decide, by decide, by decide⟩

/-! Helper lemmas for the amended C9: the collapse passes on a maximal
operator run. -/
theorem collapsePipes_cons_ne (d : Char) (rest : List Char) (hd : d ≠ '|') :
    collapsePipes ('|' :: d :: rest) = '|' :: collapsePipes (d :: rest) := by
  rw [collapsePipes.eq_def]
  split
  · simp_all
  · rename_i heq
    injection heq with h1 h2
    subst h1
    subst h2
    rfl
  · rename_i heq
    exact absurd heq (by simp)

theorem collapsePipes_cons2_ne (d : Char) (rest : List Char) (hd : d ≠ '|') :
    collapsePipes ('|' :: '|' :: d :: rest) = '|' :: collapsePipes ('|' :: d :: rest) := by
  rw [collapsePipes.eq_def]
  split
  · simp_all
  · rename_i heq
    injection heq with h1 h2
    subst h1
    subst h2
    rfl
  · rename_i heq
    exact absurd heq (by simp)

theorem collapseAmps_cons_ne (d : Char) (rest : List Char) (hd : d ≠ '&') :
    collapseAmps ('&' :: d :: rest) = '&' :: collapseAmps (d :: rest) := by
  rw [collapseAmps.eq_def]
  split
  · simp_all
  · rename_i heq
    injection heq with h1 h2
    subst h1
    subst h2
    rfl
  · rename_i heq
    exact absurd heq (by simp)

theorem collapseAmps_cons2_ne (d : Char) (rest : List Char) (hd : d ≠ '&') :
    collapseAmps ('&' :: '&' :: d :: rest) = '&' :: collapseAmps ('&' :: d :: rest) := by
  rw [collapseAmps.eq_def]
  split
  · simp_all
  · rename_i heq
    injection heq with h1 h2
    subst h1
    subst h2
    rfl
  · rename_i heq
    exact absurd heq (by simp)

/-- On a maximal run of `m` pipes, the triple-collapse pass rewrites each
non-overlapping triple, left to right, leaving `2⌊m/3⌋ + (m mod 3)` pipes. -/
theorem collapsePipes_run (m : Nat) (rest : List Char) (h : rest.head? ≠ some '|') :
    collapsePipes (List.replicate m '|' ++ rest)
      = List.replicate (2 * (m / 3) + m % 3) '|' ++ collapsePipes rest := by
  match m with
  | 0 => simp
  | 1 =>
    cases rest with
    | nil => rfl
    | cons d rest' =>
      have hd : d ≠ '|' := by simpa using h
      simpa using collapsePipes_cons_ne d rest' hd
  | 2 =>
    cases rest with
    | nil => rfl
    | cons d rest' =>
      have hd : d ≠ '|' := by simpa using h
      have h2 := collapsePipes_cons2_ne d rest' hd
      have h1 := collapsePipes_cons_ne d rest' hd
      simp only [List.replicate, List.cons_append, List.nil_append]
      rw [h2, h1]
  | n + 3 =>
    have ih := collapsePipes_run n rest h
    have harith : 2 * ((n + 3) / 3) + (n + 3) % 3 = (2 * (n / 3) + n % 3) + 2 := by
      omega
    have hrepl : List.replicate (n + 3) '|' ++ rest
        = '|' :: '|' :: '|' :: (List.replicate n '|' ++ rest) := by
      simp [List.replicate_succ]
    have hstep : collapsePipes ('|' :: '|' :: '|' :: (List.replicate n '|' ++ rest))
        = '|' :: '|' :: collapsePipes (List.replicate n '|' ++ rest) := rfl
    rw [hrepl, hstep, ih, harith]
    simp [List.replicate_succ]

/-- On a maximal run of `m` ampersands, the triple-collapse pass behaves
like `collapsePipes_run`. -/
theorem collapseAmps_run (m : Nat) (rest : List Char) (h : rest.head? ≠ some '&') :
    collapseAmps (List.replicate m '&' ++ rest)
      = List.replicate (2 * (m / 3) + m % 3) '&' ++ collapseAmps rest := by
  match m with
  | 0 => simp
  | 1 =>
    cases rest with
    | nil => rfl
    | cons d rest' =>
      have hd : d ≠ '&' := by simpa using h
      simpa using collapseAmps_cons_ne d rest' hd
  | 2 =>
    cases rest with
    | nil => rfl
    | cons d rest' =>
      have hd : d ≠ '&' := by simpa using h
      have h2 := collapseAmps_cons2_ne d rest' hd
      have h1 := collapseAmps_cons_ne d rest' hd
      simp only [List.replicate, List.cons_append, List.nil_append]
      rw [h2, h1]
  | n + 3 =>
    have ih := collapseAmps_run n rest h
    have harith : 2 * ((n + 3) / 3) + (n + 3) % 3 = (2 * (n / 3) + n % 3) + 2 := by
      omega
    have hrepl : List.replicate (n + 3) '&' ++ rest
        = '&' :: '&' :: '&' :: (List.replicate n '&' ++ rest) := by
      simp [List.replicate_succ]
    have hstep : collapseAmps ('&' :: '&' :: '&' :: (List.replicate n '&' ++ rest))
        = '&' :: '&' :: collapseAmps (List.replicate n '&' ++ rest) := rfl
    rw [hrepl, hstep, ih, harith]
    simp [List.replicate_succ]

/-- Claim C9, amended: the collapse pass replaces each non-overlapping
triple of identical operator characters once, scanning left to right, so a
run of `m` becomes `2⌊m/3⌋ + (m mod 3)` characters — which is the canonical
2-character operator exactly when `m ≤ 3`, not for runs of every length. -/
theorem C9_collapse_run_formula (m : Nat) (rest1 rest2 : List Char)
    (h1 : rest1.head? ≠ some '|') (h2 : rest2.head? ≠ some '&') :
    collapsePipes (List.replicate m '|' ++ rest1)
        = List.replicate (2 * (m / 3) + m % 3) '|' ++ collapsePipes rest1 ∧
    collapseAmps (List.replicate m '&' ++ rest2)
        = List.replicate (2 * (m / 3) + m % 3) '&' ++ collapseAmps rest2 := by
  exact ⟨collapsePipes_run m rest1 h1, collapseAmps_run m rest2 h2⟩

/-! Helper lemmas for the amended C3 and C4: behaviour of the pattern
compiler on well-behaved inputs. -/
theorem buildRegexBody_cons (c : Char) (l : List Char) :
    buildRegexBody (c :: l) = escChar c ++ buildRegexBody l := by
  unfold buildRegexBody escChar
  by_cases h1 : c = '.'
  · subst h1; simp
  · by_cases h2 : c = '*'
    · subst h2; simp [h1]
    · by_cases h3 : c = '?'
      · subst h3; simp [h1, h2]
      · simp [h1, h2, h3]

theorem plain_ne_backslash {c : Char} (hc : isPlainLiteral c = true) : c ≠ '\\' := by
  intro hh; subst hh; exact absurd hc (by decide)

theorem plain_ne_star {c : Char} (hc : isPlainLiteral c = true) : c ≠ '*' := by
  intro hh; subst hh; exact absurd hc (by decide)

theorem plain_ne_quest {c : Char} (hc : isPlainLiteral c = true) : c ≠ '?' := by
  intro hh; subst hh; exact absurd hc (by decide)

theorem plain_not_bareMeta {c : Char} (hc : isPlainLiteral c = true) :
    isBareMeta c = false := by
  by_contra hb
  rw [Bool.not_eq_false] at hb
  simp only [isBareMeta, Bool.or_eq_true, decide_eq_true_eq] at hb
  rcases hb with
    (((((((((((rfl | rfl) | rfl) | rfl) | rfl) | rfl) | rfl) | rfl) | rfl) | rfl) | rfl) | rfl) <;>
    exact absurd hc (by decide)

theorem identOrPlain_ne_plus {c : Char}
    (hc : isIdentChar c = true ∨ isPlainLiteral c = true) : c ≠ '+' := by
  intro hh; subst hh
  rcases hc with h | h <;> exact absurd h (by decide)

theorem escChar_head_not_quant {l : List Char}
    (h : ∀ c ∈ l, isIdentChar c = true ∨ isPlainLiteral c = true) :
    (buildRegexBody l).head? ≠ some '*' ∧ (buildRegexBody l).head? ≠ some '+' := by
  cases l with
  | nil => constructor <;> simp [buildRegexBody]
  | cons c l =>
    rw [buildRegexBody_cons]
    have hc := h c (by simp)
    have hplus : c ≠ '+' := identOrPlain_ne_plus hc
    unfold escChar
    by_cases h1 : c = '.'
    · subst h1; simp
    · by_cases h2 : c = '*'
      · subst h2
        rw [if_neg (by decide), if_pos rfl]
        simp
      · by_cases h3 : c = '?'
        · subst h3
          rw [if_neg (by decide), if_neg (by decide), if_pos rfl]
          simp
        · rw [if_neg h1, if_neg h2, if_neg h3]
          simp only [List.cons_append, List.nil_append, List.head?_cons, ne_eq,
            Option.some.injEq]
          exact ⟨h2, hplus⟩

/-- Step equation: an identity escape followed by no quantifier parses as a
single literal atom. -/
theorem parseItemsF_cons_esc (fuel : Nat) (e : Char) (rest : List Char)
    (he : isIdentityEscape e = true)
    (hr : rest.head? ≠ some '*') (hr2 : rest.head? ≠ some '+') :
    parseItemsF (fuel + 1) ('\\' :: e :: rest)
      = (parseItemsF fuel rest).map (RItem.once (.lit e) :: ·) := by
  simp [parseItemsF, parseAtom, he, hr, hr2]

/-- Step equation: a non-meta literal character followed by no quantifier
parses as a single literal atom. -/
theorem parseItemsF_cons_lit (fuel : Nat) (c : Char) (rest : List Char)
    (hc1 : c ≠ '\\') (hc2 : c ≠ '.') (hc3 : isBareMeta c = false)
    (hr : rest.head? ≠ some '*') (hr2 : rest.head? ≠ some '+') :
    parseItemsF (fuel + 1) (c :: rest)
      = (parseItemsF fuel rest).map (RItem.once (.lit c) :: ·) := by
  simp [parseItemsF, parseAtom, hc1, hc2, hc3, hr, hr2]

/-- Step equation: a dot followed by no quantifier parses as a single
any-character atom. -/
theorem parseItemsF_cons_dot (fuel : Nat) (rest : List Char)
    (hr : rest.head? ≠ some '*') (hr2 : rest.head? ≠ some '+') :
    parseItemsF (fuel + 1) ('.' :: rest)
      = (parseItemsF fuel rest).map (RItem.once .dot :: ·) := by
  simp [parseItemsF, parseAtom, hr, hr2]

/-- Step equation: `.` followed by the `*` quantifier parses as a starred
any-character atom. -/
theorem parseItemsF_cons_dotstar (fuel : Nat) (rest : List Char) :
    parseItemsF (fuel + 1) ('.' :: '*' :: rest)
      = (parseItemsF fuel rest).map (RItem.star .dot :: ·) := by
  simp [parseItemsF, parseAtom]

/-- The compiled form of an all-plain pattern parses into the corresponding
sequence of literal atoms (fuel-generalized). -/
theorem parseItemsF_plain (l : List Char) (fuel : Nat)
    (h : l.all isPlainLiteral = true) (hfuel : (buildRegexBody l).length < fuel) :
    parseItemsF fuel (buildRegexBody l)
      = some (l.map fun c => RItem.once (.lit c)) := by
  induction l generalizing fuel with
  | nil =>
    cases fuel with
    | zero => simp [buildRegexBody] at hfuel
    | succ k => rfl
  | cons c l ih =>
    have hc : isPlainLiteral c = true := List.all_eq_true.mp h c (by simp)
    have hl : l.all isPlainLiteral = true := by
      apply List.all_eq_true.mpr
      intro x hx
      exact List.all_eq_true.mp h x (by simp [hx])
    have hhead := escChar_head_not_quant (l := l)
      (fun x hx => Or.inr (List.all_eq_true.mp hl x hx))
    rw [buildRegexBody_cons] at hfuel ⊢
    by_cases hdot : c = '.'
    · subst hdot
      have hesc : escChar '.' = ['\\', '.'] := by decide
      rw [hesc] at hfuel ⊢
      cases fuel with
      | zero => simp at hfuel
      | succ k =>
        rw [List.cons_append, List.cons_append, List.nil_append,
          parseItemsF_cons_esc k '.' _ (by decide) hhead.1 hhead.2]
        rw [ih k hl (by
          simp only [List.length_append, List.length_cons, List.length_nil] at hfuel
          omega)]
        simp
    · have hne : escChar c = [c] := by
        unfold escChar
        rw [if_neg hdot, if_neg (plain_ne_star hc), if_neg (plain_ne_quest hc)]
      rw [hne] at hfuel ⊢
      cases fuel with
      | zero => simp at hfuel
      | succ k =>
        rw [List.cons_append, List.nil_append,
          parseItemsF_cons_lit k c _ (plain_ne_backslash hc) hdot
            (plain_not_bareMeta hc) hhead.1 hhead.2]
        rw [ih k hl (by
          simp only [List.length_append, List.length_cons, List.length_nil] at hfuel
          omega)]
        simp

/-- The compiled form of an all-plain pattern parses into literal atoms. -/
theorem parseItems_plain {l : List Char} (h : l.all isPlainLiteral = true) :
    parseItems (buildRegexBody l) = some (l.map fun c => RItem.once (.lit c)) :=
  parseItemsF_plain l _ h (Nat.lt_succ_self _)

/-- A sequence of literal atoms matches exactly the corresponding string. -/
theorem reMatchF_lits (cs : List Char) (s : List Char) (fuel : Nat)
    (hfuel : cs.length + s.length < fuel) :
    reMatchF fuel (cs.map fun c => RItem.once (.lit c)) s = decide (s = cs) := by
  induction cs generalizing s fuel with
  | nil =>
    cases fuel with
    | zero => omega
    | succ k =>
      cases s <;> simp [reMatchF]
  | cons c cs ih =>
    cases fuel with
    | zero => omega
    | succ k =>
      cases s with
      | nil => simp [reMatchF]
      | cons d s' =>
        have : cs.length + s'.length < k := by
          simp only [List.length_cons] at hfuel
          omega
        simp only [List.map_cons, reMatchF, amatch, ih s' k this]
        by_cases hd : d = c
        · subst hd; simp
        · simp [hd, fun hh : d :: s' = c :: cs => hd (List.cons.inj hh).1]

theorem reMatch_lits (cs s : List Char) :
    reMatch (cs.map fun c => RItem.once (.lit c)) s = decide (s = cs) := by
  unfold reMatch
  apply reMatchF_lits
  simp

/-- Characters of the trimmed string occur in the original. -/
theorem mem_jsTrim {x : Char} {l : List Char} (h : x ∈ jsTrim l) : x ∈ l := by
  unfold jsTrim at h
  rw [List.mem_reverse] at h
  have h1 := (List.dropWhile_sublist (l := (l.dropWhile isJsSpace).reverse)
    (p := isJsSpace)).mem h
  rw [List.mem_reverse] at h1
  exact (List.dropWhile_sublist (l := l) (p := isJsSpace)).mem h1

/-- List-level form of the amended C4. -/
theorem checkSimpleL_plain (p : List Char) (granted : List (List Char))
    (hplain : p.all isPlainLiteral = true)
    (ht : jsTrim p ≠ "true".data) (hf : jsTrim p ≠ "false".data) :
    checkSimpleL p granted = .ok (granted.contains p) := by
  have hstar : jsTrim p ≠ "*".data := by
    intro hh
    have hmem : '*' ∈ jsTrim p := by rw [hh]; decide
    have hmem2 : '*' ∈ p := mem_jsTrim hmem
    have := List.all_eq_true.mp hplain '*' hmem2
    simp [isPlainLiteral, isAsciiAlpha, isAsciiDigit] at this
  unfold checkSimpleL
  rw [if_neg ht, if_neg hf, if_neg hstar, parseItems_plain hplain]
  show Except.ok (granted.any fun q => reMatch (p.map fun c => RItem.once (.lit c)) q)
      = Except.ok (granted.contains p)
  congr 1
  apply Bool.eq_iff_iff.mpr
  rw [List.any_eq_true]
  constructor
  · rintro ⟨q, hqmem, hqr⟩
    rw [reMatch_lits] at hqr
    have hqp : q = p := of_decide_eq_true hqr
    subst hqp
    exact List.elem_iff.mpr hqmem
  · intro hcont
    have hpmem : p ∈ granted := List.elem_iff.mp hcont
    exact ⟨p, hpmem, by rw [reMatch_lits]; simp⟩

/-- Claim C4, amended: for a pattern whose characters are regex-neutral
(letters, digits, `_`, `.`, `-`, `:`, space — in particular no `*`, `?`,
operators, or other regex metacharacters) and whose trim is not a boolean
literal, the matcher is exact string membership. -/
theorem C4_plain_pattern_exact_membership (p : String) (granted : List String)
    (hplain : p.data.all isPlainLiteral = true)
    (ht : jsTrim p.data ≠ "true".data) (hf : jsTrim p.data ≠ "false".data) :
    checkSimplePermissionPattern p granted = .ok (granted.contains p) := by
  unfold checkSimplePermissionPattern
  rw [checkSimpleL_plain p.data (granted.map String.data) hplain ht hf]
  congr 1
  apply Bool.eq_iff_iff.mpr
  constructor
  · intro h
    have hm : p.data ∈ granted.map String.data := List.elem_iff.mp h
    rw [List.mem_map] at hm
    obtain ⟨s, hs, hds⟩ := hm
    have hsp : s = p := by
      cases s; cases p; exact congrArg String.mk hds
    subst hsp
    exact List.elem_iff.mpr hs
  · intro h
    have hp : p ∈ granted := List.elem_iff.mp h
    exact List.elem_iff.mpr (List.mem_map.mpr ⟨p, hp, rfl⟩)

/-- Witness for the amended C4 at the concrete pattern `"x.y"`. -/
theorem C4_plain_pattern_exact_membership_witness :
    ("x.y".data.all isPlainLiteral = true ∧
      jsTrim "x.y".data ≠ "true".data ∧ jsTrim "x.y".data ≠ "false".data) ∧
    checkSimplePermissionPattern "x.y" ["x.y", "z"]
      = .ok ((["x.y", "z"] : List String).contains "x.y") := by
  exact ⟨⟨by decide, by decide, by decide⟩,
    C4_plain_pattern_exact_membership "x.y" ["x.y", "z"] (by decide) (by decide) (by decide)⟩

/-! Helper lemmas for the amended C8. -/

/-- Claim C8, amended: for the pattern-honouring bulk helper
`hasAnyPattern`, when no element makes the matcher throw, the result is
`.ok true` exactly when some element's `hasPermissionPattern` value is
truthy (wildcards and expressions honoured); `hasAnyPermission`, by
contrast, is exact membership only (see the counterexample). -/
theorem C8_hasAnyPattern_iff (patterns : List String) (granted : List String)
    (h : ∀ p ∈ patterns, (hasPermissionPattern p granted).isOk = true) :
    hasAnyPattern patterns granted = .ok true ↔
      ∃ p ∈ patterns, ∃ v, hasPermissionPattern p granted = .ok v ∧ jsTruthy v = true := by
  induction patterns with
  | nil => simp [hasAnyPattern]
  | cons p ps ih =>
    have hp := h p (by simp)
    obtain ⟨v, hv⟩ : ∃ v, hasPermissionPattern p granted = .ok v := by
      cases hpp : hasPermissionPattern p granted with
      | error e => rw [hpp] at hp; simp [Except.isOk, Except.toBool] at hp
      | ok w => exact ⟨w, rfl⟩
    have hrest : ∀ q ∈ ps, (hasPermissionPattern q granted).isOk = true :=
      fun q hq => h q (by simp [hq])
    by_cases htr : jsTruthy v = true
    · simp only [hasAnyPattern, hv, htr, if_true]
      constructor
      · intro _
        exact ⟨p, by simp, v, hv, htr⟩
      · intro _
        trivial
    · simp only [hasAnyPattern, hv, htr, if_false]
      rw [if_neg (by simp)]
      rw [ih hrest]
      constructor
      · rintro ⟨q, hq, w, hw, htw⟩
        exact ⟨q, by simp [hq], w, hw, htw⟩
      · rintro ⟨q, hq, w, hw, htw⟩
        rcases List.mem_cons.mp hq with rfl | hq'
        · rw [hv] at hw
          injection hw with hvw
          subst hvw
          exact absurd htw htr
        · exact ⟨q, hq', w, hw, htw⟩

/-- Witness for the amended C8 at `patterns = ["users.*"]`,
`granted = ["users.create"]`. -/
theorem C8_hasAnyPattern_iff_witness :
    (∀ p ∈ (["users.*"] : List String),
      (hasPermissionPattern p ["users.create"]).isOk = true) ∧
    (hasAnyPattern ["users.*"] ["users.create"] = .ok true ↔
      ∃ p ∈ (["users.*"] : List String), ∃ v,
        hasPermissionPattern p ["users.create"] = .ok v ∧ jsTruthy v = true) := by
  exact ⟨by decide, C8_hasAnyPattern_iff ["users.*"] ["users.create"] (by decide)⟩

/-! Helper lemmas for the amended C3: every token produced by the
permission regex lies in the safe class, so the matcher calls inside the
expression evaluator never throw. -/
theorem tryMatch_tokOK {c : Char} {rest tok rest' : List Char}
    (h : tryMatch c rest = some (tok, rest')) : tokOK tok := by
  unfold tryMatch at h
  split at h
  · rename_i hcw
    split at h
    · exact absurd h (by simp)
    · simp only [Option.some.injEq, Prod.mk.injEq] at h
      obtain ⟨rfl, -⟩ := h
      rcases Bool.or_eq_true .. |>.mp hcw with hc | hc
      · exact Or.inl (by simp [of_decide_eq_true hc])
      · exact Or.inr (Or.inl (by simp [of_decide_eq_true hc]))
  · split at h
    · rename_i hstart
      split at h
      · simp only [Option.some.injEq, Prod.mk.injEq] at h
        obtain ⟨rfl, -⟩ := h
        refine Or.inr (Or.inr ⟨c, _, rfl, hstart, ?_⟩)
        apply List.all_eq_true.mpr
        intro x hx
        exact List.mem_takeWhile_imp hx
      · split at h
        · exact absurd h (by simp)
        · simp only [Option.some.injEq, Prod.mk.injEq] at h
          obtain ⟨rfl, -⟩ := h
          refine Or.inr (Or.inr ⟨c, _, rfl, hstart, ?_⟩)
          apply List.all_eq_true.mpr
          intro x hx
          exact List.mem_takeWhile_imp ((List.dropLast_sublist _).mem hx)
    · exact absurd h (by simp)

theorem scanTokensF_tokOK (fuel : Nat) (l : List Char) :
    ∀ tok ∈ scanTokensF fuel l, tokOK tok := by
  induction fuel generalizing l with
  | zero => intro tok htok; simp [scanTokensF] at htok
  | succ k ih =>
    intro tok htok
    cases l with
    | nil => simp [scanTokensF] at htok
    | cons c rest =>
      simp only [scanTokensF] at htok
      cases hm : tryMatch c rest with
      | some pr =>
        rw [hm] at htok
        rcases List.mem_cons.mp htok with rfl | htok'
        · exact tryMatch_tokOK (by rw [hm])
        · exact ih pr.2 tok htok'
      | none =>
        rw [hm] at htok
        exact ih rest tok htok

theorem scanTokens_tokOK (l : List Char) : ∀ tok ∈ scanTokens l, tokOK tok :=
  scanTokensF_tokOK (l.length + 1) l

theorem ident_ne_backslash {c : Char} (hc : isIdentChar c = true) : c ≠ '\\' := by
  intro hh; subst hh; exact absurd hc (by decide)

theorem ident_not_bareMeta {c : Char} (hc : isIdentChar c = true)
    (h1 : c ≠ '*') (h2 : c ≠ '?') : isBareMeta c = false := by
  by_contra hb
  rw [Bool.not_eq_false] at hb
  simp only [isBareMeta, Bool.or_eq_true, decide_eq_true_eq] at hb
  rcases hb with
    (((((((((((rfl | rfl) | rfl) | rfl) | rfl) | rfl) | rfl) | rfl) | rfl) | rfl) | rfl) | rfl)
  · exact absurd hc (by decide)
  · exact absurd hc (by decide)
  · exact absurd hc (by decide)
  · exact absurd hc (by decide)
  · exact absurd hc (by decide)
  · exact absurd hc (by decide)
  · exact absurd hc (by decide)
  · exact h1 rfl
  · exact absurd hc (by decide)
  · exact h2 rfl
  · exact absurd hc (by decide)
  · exact absurd hc (by decide)

/-- The compiled body of an all-ident-class string always parses. -/
theorem parseItemsF_ident (l : List Char) (fuel : Nat)
    (hall : l.all isIdentChar = true) (hfuel : (buildRegexBody l).length < fuel) :
    (parseItemsF fuel (buildRegexBody l)).isSome = true := by
  induction l generalizing fuel with
  | nil =>
    cases fuel with
    | zero => simp [buildRegexBody] at hfuel
    | succ k => rfl
  | cons c l ih =>
    have hc : isIdentChar c = true := List.all_eq_true.mp hall c (by simp)
    have hl : l.all isIdentChar = true := by
      apply List.all_eq_true.mpr
      intro x hx
      exact List.all_eq_true.mp hall x (by simp [hx])
    have hhead := escChar_head_not_quant (l := l)
      (fun x hx => Or.inl (List.all_eq_true.mp hl x hx))
    rw [buildRegexBody_cons] at hfuel ⊢
    by_cases hdot : c = '.'
    · subst hdot
      have hesc : escChar '.' = ['\\', '.'] := by decide
      rw [hesc] at hfuel ⊢
      cases fuel with
      | zero => simp at hfuel
      | succ k =>
        rw [List.cons_append, List.cons_append, List.nil_append,
          parseItemsF_cons_esc k '.' _ (by decide) hhead.1 hhead.2]
        have hsome := ih k hl (by
          simp only [List.length_append, List.length_cons, List.length_nil] at hfuel
          omega)
        obtain ⟨r, hr⟩ := Option.isSome_iff_exists.mp hsome
        rw [hr]
        rfl
    · by_cases hstar : c = '*'
      · subst hstar
        have hesc : escChar '*' = ['.', '*'] := by decide
        rw [hesc] at hfuel ⊢
        cases fuel with
        | zero => simp at hfuel
        | succ k =>
          rw [List.cons_append, List.cons_append, List.nil_append,
            parseItemsF_cons_dotstar k _]
          have hsome := ih k hl (by
            simp only [List.length_append, List.length_cons, List.length_nil] at hfuel
            omega)
          obtain ⟨r, hr⟩ := Option.isSome_iff_exists.mp hsome
          rw [hr]
          rfl
      · by_cases hquest : c = '?'
        · subst hquest
          have hesc : escChar '?' = ['.'] := by decide
          rw [hesc] at hfuel ⊢
          cases fuel with
          | zero => simp at hfuel
          | succ k =>
            rw [List.cons_append, List.nil_append,
              parseItemsF_cons_dot k _ hhead.1 hhead.2]
            have hsome := ih k hl (by
              simp only [List.length_append, List.length_cons, List.length_nil] at hfuel
              omega)
            obtain ⟨r, hr⟩ := Option.isSome_iff_exists.mp hsome
            rw [hr]
            rfl
        · have hesc : escChar c = [c] := by
            unfold escChar
            rw [if_neg hdot, if_neg hstar, if_neg hquest]
          rw [hesc] at hfuel ⊢
          cases fuel with
          | zero => simp at hfuel
          | succ k =>
            rw [List.cons_append, List.nil_append,
              parseItemsF_cons_lit k c _ (ident_ne_backslash hc) hdot
                (ident_not_bareMeta hc hstar hquest) hhead.1 hhead.2]
            have hsome := ih k hl (by
              simp only [List.length_append, List.length_cons, List.length_nil] at hfuel
              omega)
            obtain ⟨r, hr⟩ := Option.isSome_iff_exists.mp hsome
            rw [hr]
            rfl

/-- The matcher never throws on a token of the safe class. -/
theorem checkSimpleL_tokOK {tok : List Char} (granted : List (List Char))
    (h : tokOK tok) : (checkSimpleL tok granted).isOk = true := by
  rcases h with rfl | rfl | ⟨c, run, rfl, hstart, hrun⟩
  · rfl
  · rfl
  · have hall : (c :: run).all isIdentChar = true := by
      apply List.all_eq_true.mpr
      intro x hx
      rcases List.mem_cons.mp hx with rfl | hx'
      · revert hstart
        unfold isIdentStart isIdentChar isAsciiAlpha
        intro hstart
        rcases Bool.or_eq_true .. |>.mp hstart with hh | hh
        · simp [hh]
        · simp [hh]
      · exact List.all_eq_true.mp hrun x hx'
    unfold checkSimpleL
    by_cases h1 : jsTrim (c :: run) = "true".data
    · rw [if_pos h1]; rfl
    · rw [if_neg h1]
      by_cases h2 : jsTrim (c :: run) = "false".data
      · rw [if_pos h2]; rfl
      · rw [if_neg h2]
        by_cases h3 : jsTrim (c :: run) = "*".data
        · rw [if_pos h3]; rfl
        · rw [if_neg h3]
          have hsome := parseItemsF_ident (c :: run) ((buildRegexBody (c :: run)).length + 1)
            hall (Nat.lt_succ_self _)
          obtain ⟨r, hr⟩ := Option.isSome_iff_exists.mp hsome
          unfold parseItems
          rw [hr]
          rfl

/-- The substitution loop never throws when all tokens are safe. -/
theorem resolveTokens_isOk (granted : List (List Char)) (toks : List (List Char))
    (cur : List Char) (h : ∀ t ∈ toks, tokOK t) :
    (resolveTokens granted toks cur).isOk = true := by
  induction toks generalizing cur with
  | nil => rfl
  | cons t ts ih =>
    have ht := h t (by simp)
    have hts : ∀ u ∈ ts, tokOK u := fun u hu => h u (by simp [hu])
    unfold resolveTokens
    by_cases hlit : t = "true".data ∨ t = "false".data
    · rw [if_pos (by simpa using hlit)]
      exact ih cur hts
    · rw [if_neg (by simpa using hlit)]
      have hok := checkSimpleL_tokOK granted ht
      cases hcs : checkSimpleL t granted with
      | error e => rw [hcs] at hok; simp [Except.isOk, Except.toBool] at hok
      | ok b => exact ih _ hts

/-- Claim C3, amended: the expression evaluator is total — every token the
permission regex extracts lies in the safe class `[a-zA-Z0-9_.*?]`, whose
compiled pattern regex is always valid, and the dynamic evaluation is
guarded by `try`/`catch`, so `evaluateExpression` never raises for any
input string and granted set. -/
theorem C3_evaluate_never_raises (expr : String) (granted : List String) :
    (evaluatePermissionExpression expr granted).isOk = true := by
  unfold evaluatePermissionExpression evalExprL
  by_cases h1 : jsTrim expr.data = "true".data
  · rw [if_pos h1]; rfl
  · rw [if_neg h1]
    by_cases h2 : jsTrim expr.data = "false".data
    · rw [if_pos h2]; rfl
    · rw [if_neg h2]
      have hres := resolveTokens_isOk (granted.map String.data)
        (scanTokens (normalizeOps expr.data)) (normalizeOps expr.data)
        (scanTokens_tokOK (normalizeOps expr.data))
      cases hmatch : resolveTokens (granted.map String.data)
          (scanTokens (normalizeOps expr.data)) (normalizeOps expr.data) with
      | error e => rw [hmatch] at hres; simp [Except.isOk, Except.toBool] at hres
      | ok residual => rfl

/-- Witness for the amended C9 at a post-expansion run of four pipes (and
ampersands), which collapses to three characters, not two. -/
theorem C9_collapse_run_formula_witness :
    (("b".data.head? ≠ some '|') ∧ ("b".data.head? ≠ some '&')) ∧
    collapsePipes (List.replicate 4 '|' ++ "b".data)
        = List.replicate 3 '|' ++ collapsePipes "b".data ∧
    collapseAmps (List.replicate 4 '&' ++ "b".data)
        = List.replicate 3 '&' ++ collapseAmps "b".data := by
  exact ⟨⟨by decide, by decide⟩,
    (C9_collapse_run_formula 4 "b".data "b".data (by decide) (by decide)).1,
    (C9_collapse_run_formula 4 "b".data "b".data (by decide) (by decide)).2⟩

end Perm

